import Mathlib

/-!
Shallow embedding of the fault-injection experiment notebook
`change_detection/notebooks/broken_MCMC_MH_1DGaussian.ipynb`: the `BrokenMH`
sampler wrapper, the `get_klds` experiment driver and the
`NormalDist.kl_divergence` metric.  The external pints collaborators
(proposal generation `ask`, the unmodified Metropolis-Hastings `tell`, the
posterior evaluation, and the chain-to-divergence reduction) are abstracted as
explicit function parameters collected in `Extern`.  Randomness is embedded as
explicit streams: `rng : ℕ → ℚ` with cursor `kp` is the Python `random`
generator used for the fault decision, while the numpy generator used inside
the external collaborators is threaded as an abstract cursor `kn`.
-/

namespace BrokenMCMC

/-- Sampler state of a `pints.MetropolisRandomWalkMCMC` instance as read and
written by `BrokenMH.tell`: current sample (`self._current`, possibly `None`),
current log-pdf (`self._current_log_pdf`), the pending proposal slot
(`self._proposed`, possibly `None`), iteration count (`self._iterations`),
running acceptance rate (`self._acceptance`), and the `error_freq` attribute
added by `BrokenMH`.  Samples are 1-dimensional (the experiment targets the 1D
Gaussian), embedded as `ℚ`. -/
structure MHState where
  current : Option ℚ
  current_log_pdf : ℚ
  proposed : Option ℚ
  iterations : ℕ
  acceptance : ℚ
  error_freq : ℚ
  deriving Repr, DecidableEq

/-- Embedding of `BrokenMH.tell(fx)`.  The delegate `superTell` is the external
`pints.MetropolisRandomWalkMCMC.tell`; it may consume the numpy stream, so it
maps state, `fx` and the numpy cursor `kn` to new state, returned sample, and
new numpy cursor.  The guard `if self.error_freq == 0.0 or random.random() >
self.error_freq` short-circuits in Python, so the fault stream `rng` is
consulted (and its cursor `kp` advanced) only when `error_freq ≠ 0`.  The
fault branch mirrors the notebook body: update `_acceptance` to
`(iterations * acceptance + 1) / (iterations + 1)`, increment `_iterations`,
move `_proposed` into `_current`, store `fx` as `_current_log_pdf`, clear
`_proposed`, and return the new `_current`. -/
def brokenTell (superTell : MHState → ℚ → ℕ → MHState × Option ℚ × ℕ)
    (st : MHState) (fx : ℚ) (rng : ℕ → ℚ) (kp kn : ℕ) :
    MHState × Option ℚ × ℕ × ℕ :=
  if st.error_freq = 0 then
    let r := superTell st fx kn
    (r.1, r.2.1, kp, r.2.2)
  else if rng kp > st.error_freq then
    let r := superTell st fx kn
    (r.1, r.2.1, kp + 1, r.2.2)
  else
    let st' : MHState :=
      { st with
        acceptance := ((st.iterations : ℚ) * st.acceptance + 1) / ((st.iterations : ℚ) + 1)
        iterations := st.iterations + 1
        current := st.proposed
        current_log_pdf := fx
        proposed := none }
    (st', st'.current, kp + 1, kn)

/-- Concrete stand-in for the external Metropolis-Hastings `tell`, used only to
instantiate theorems on closed inputs: it rejects the proposal, bumps the
iteration count and consumes one numpy draw. -/
def superTellW : MHState → ℚ → ℕ → MHState × Option ℚ × ℕ :=
  fun st fx kn =>
    ({ st with iterations := st.iterations + 1, current_log_pdf := fx }, st.current, kn + 1)

/-- Concrete fault-decision stream used only to instantiate theorems. -/
def rngW : ℕ → ℚ := fun _ => 1 / 2

/-- Concrete sampler state with `error_freq = 0`, used only to instantiate
theorems on closed inputs. -/
def stW0 : MHState :=
  { current := some 1
    current_log_pdf := 0
    proposed := some 2
    iterations := 3
    acceptance := 1 / 3
    error_freq := 0 }

/-- Concrete sampler state with `error_freq = 3/4`, used only to instantiate
theorems on closed inputs. -/
def stW1 : MHState :=
  { current := some 1
    current_log_pdf := 0
    proposed := some 2
    iterations := 3
    acceptance := 1 / 3
    error_freq := 3 / 4 }

/-- C2: when the configured error frequency is 0, `BrokenMH.tell` delegates to
the unmodified Metropolis-Hastings `tell`: identical state update, identical
returned value, identical numpy-stream consumption, and the fault stream is
left untouched. -/
theorem brokenTell_error_freq_zero_refines_MH
    (superTell : MHState → ℚ → ℕ → MHState × Option ℚ × ℕ)
    (st : MHState) (fx : ℚ) (rng : ℕ → ℚ) (kp kn : ℕ)
    (h : st.error_freq = 0) :
    brokenTell superTell st fx rng kp kn
      = ((superTell st fx kn).1, (superTell st fx kn).2.1, kp,
          (superTell st fx kn).2.2) := by
  simp [brokenTell, h]

/-- Witness for C2 at closed inputs. -/
theorem brokenTell_error_freq_zero_refines_MH_witness :
    brokenTell superTellW stW0 5 rngW 7 11
      = ((superTellW stW0 5 11).1, (superTellW stW0 5 11).2.1, 7,
          (superTellW stW0 5 11).2.2) :=
  brokenTell_error_freq_zero_refines_MH superTellW stW0 5 rngW 7 11 rfl

/-- C3: when the fault branch fires (`error_freq ≠ 0` and the drawn uniform is
at most `error_freq`), `BrokenMH.tell` with pending proposal `x` sets the
acceptance rate to `(iterations * acceptance + 1) / (iterations + 1)`,
increments the iteration count by one, installs `x` as current sample with
`fx` as current log-pdf, clears the proposal slot, and returns `x`; in all
other cases it delegates to the unmodified Metropolis-Hastings `tell`; and the
two branch conditions are mutually exclusive and exhaustive. -/
theorem brokenTell_fault_branch
    (superTell : MHState → ℚ → ℕ → MHState × Option ℚ × ℕ)
    (st : MHState) (fx : ℚ) (rng : ℕ → ℚ) (kp kn : ℕ) (x : ℚ)
    (hx : st.proposed = some x) :
    (st.error_freq ≠ 0 ∧ rng kp ≤ st.error_freq →
      brokenTell superTell st fx rng kp kn
        = ({ st with
              acceptance := ((st.iterations : ℚ) * st.acceptance + 1)
                / ((st.iterations : ℚ) + 1)
              iterations := st.iterations + 1
              current := some x
              current_log_pdf := fx
              proposed := none }, some x, kp + 1, kn))
    ∧ (st.error_freq = 0 ∨ st.error_freq < rng kp →
      brokenTell superTell st fx rng kp kn
        = ((superTell st fx kn).1, (superTell st fx kn).2.1,
            (if st.error_freq = 0 then kp else kp + 1),
            (superTell st fx kn).2.2))
    ∧ ((st.error_freq ≠ 0 ∧ rng kp ≤ st.error_freq)
        ↔ ¬ (st.error_freq = 0 ∨ st.error_freq < rng kp)) := by
  refine ⟨?_, ?_, ?_⟩
  · rintro ⟨h0, hu⟩
    simp [brokenTell, h0, not_lt.mpr hu, hx]
  · intro h
    by_cases h0 : st.error_freq = 0
    · simp [brokenTell, h0]
    · rcases h with h | hu
      · exact absurd h h0
      · simp [brokenTell, h0, hu]
  · constructor
    · rintro ⟨h0, hu⟩ (h | h)
      · exact h0 h
      · exact absurd hu (not_le.mpr h)
    · intro h
      push_neg at h
      exact ⟨h.1, h.2⟩

/-- Witness for C3 at closed inputs (`error_freq = 3/4`, drawn uniform 1/2). -/
theorem brokenTell_fault_branch_witness :
    brokenTell superTellW stW1 5 rngW 7 11
      = ({ stW1 with
            acceptance := ((stW1.iterations : ℚ) * stW1.acceptance + 1)
              / ((stW1.iterations : ℚ) + 1)
            iterations := stW1.iterations + 1
            current := some 2
            current_log_pdf := 5
            proposed := none }, some 2, 7 + 1, 11) :=
  (brokenTell_fault_branch superTellW stW1 5 rngW 7 11 2 rfl).1
    ⟨by norm_num [stW1], by norm_num [stW1, rngW]⟩

/-- C8 (amended): when `error_freq ≠ 0`, exactly one uniform value is consumed
from the fault stream before the branch is chosen; when `error_freq = 0`, the
Python `or` short-circuits and no fault-stream value is drawn at all. -/
theorem brokenTell_fault_draw_count
    (superTell : MHState → ℚ → ℕ → MHState × Option ℚ × ℕ)
    (st : MHState) (fx : ℚ) (rng : ℕ → ℚ) (kp kn : ℕ) :
    (st.error_freq = 0 → (brokenTell superTell st fx rng kp kn).2.2.1 = kp)
    ∧ (st.error_freq ≠ 0 →
        (brokenTell superTell st fx rng kp kn).2.2.1 = kp + 1) := by
  constructor
  · intro h
    simp [brokenTell, h]
  · intro h
    by_cases hu : rng kp > st.error_freq
    · simp [brokenTell, h, hu]
    · simp [brokenTell, h, hu]

/-- Witness for C8's amended statement at closed inputs. -/
theorem brokenTell_fault_draw_count_witness :
    (brokenTell superTellW stW0 5 rngW 7 11).2.2.1 = 7
    ∧ (brokenTell superTellW stW1 5 rngW 7 11).2.2.1 = 7 + 1 :=
  ⟨(brokenTell_fault_draw_count superTellW stW0 5 rngW 7 11).1 rfl,
    (brokenTell_fault_draw_count superTellW stW1 5 rngW 7 11).2 (by norm_num [stW1])⟩

/-- C8 counterexample: with `error_freq = 0` the invocation consumes no value
from the fault stream (the fault cursor stays at 7 instead of advancing to 8),
refuting the claim that exactly one uniform is drawn on every invocation
including `p = 0`. -/
theorem brokenTell_draws_zero_at_p_zero :
    (brokenTell superTellW stW0 5 rngW 7 11).2.2.1 = 7
    ∧ (brokenTell superTellW stW0 5 rngW 7 11).2.2.1 ≠ 7 + 1 := by
  constructor
  · simp [brokenTell, stW0]
  · simp [brokenTell, stW0]

/-- External pints collaborators of the experiment, abstracted as functions:
`ask` is `MetropolisRandomWalkMCMC.ask` (draws a proposal from the numpy
stream, stores it in the proposal slot, returns it), `eval` is the posterior
log-pdf evaluation done by the controller, `superTell` is the unmodified
`MetropolisRandomWalkMCMC.tell`, and `kld` is the chain-to-divergence
reduction `posterior.kl_divergence` applied to a recorded chain. -/
structure Extern where
  ask : MHState → ℕ → MHState × ℚ × ℕ
  eval : ℚ → ℚ
  superTell : MHState → ℚ → ℕ → MHState × Option ℚ × ℕ
  kld : List (Option ℚ) → ℚ

/-- Embedding of the `pints.MCMCController` single-chain run loop with
`BrokenMH` as method: each iteration asks for a proposal, evaluates the
posterior log-pdf there, and feeds it to `BrokenMH.tell`; the value returned
by `tell` is recorded as that iteration's chain entry.  Returns the recorded
chain, the final sampler state, and the final fault and numpy cursors. -/
def runChainAux (E : Extern) (rng : ℕ → ℚ) :
    ℕ → MHState → ℕ → ℕ → List (Option ℚ) × MHState × ℕ × ℕ
  | 0, st, kp, kn => ([], st, kp, kn)
  | n + 1, st, kp, kn =>
    let a := E.ask st kn
    let t := brokenTell E.superTell a.1 (E.eval a.2.1) rng kp a.2.2
    let rest := runChainAux E rng n t.1 t.2.2.1 t.2.2.2
    (t.2.1 :: rest.1, rest.2)

/-- Observer replaying the same run as `runChainAux` while collecting the
sequence of proposed values returned by `ask`, used to compare a chain with
the exact sequence of proposals. -/
def proposalsOf (E : Extern) (rng : ℕ → ℚ) :
    ℕ → MHState → ℕ → ℕ → List ℚ
  | 0, _, _, _ => []
  | n + 1, st, kp, kn =>
    let a := E.ask st kn
    let t := brokenTell E.superTell a.1 (E.eval a.2.1) rng kp a.2.2
    a.2.1 :: proposalsOf E rng n t.1 t.2.2.1 t.2.2.2

/-- The same controller loop with the unmodified Metropolis-Hastings `tell` in
place of `BrokenMH.tell`: no fault stream is involved. -/
def mhChainAux (E : Extern) : ℕ → MHState → ℕ → List (Option ℚ) × MHState × ℕ
  | 0, st, kn => ([], st, kn)
  | n + 1, st, kn =>
    let a := E.ask st kn
    let t := E.superTell a.1 (E.eval a.2.1) a.2.2
    let rest := mhChainAux E n t.1 t.2.2
    (t.2.1 :: rest.1, rest.2)

/-- Modelled from the spec: `pints.MetropolisRandomWalkMCMC.__init__` is not
part of this repository; per §4.2 a fresh sampler has iteration count 0,
acceptance rate 0, current sample equal to the fixed start point, and
`BrokenMH.__init__` sets `error_freq` to `0.0`. -/
def freshSampler (y : ℚ) : MHState :=
  { current := some y
    current_log_pdf := 0
    proposed := none
    iterations := 0
    acceptance := 0
    error_freq := 0 }

/-- Embedding of `BrokenMH.set_error_freq`. -/
def set_error_freq (st : MHState) (p : ℚ) : MHState :=
  { st with error_freq := p }

/-- The fixed start point `x0 = [np.array([1.0])]` of `get_klds`. -/
def startPoint : ℚ := 1

/-- Sampler state prepared by `get_klds` for run index `run`: a fresh sampler,
with `set_error_freq error_freq` applied exactly when `run >= start_breaking`. -/
def stFor (start_breaking : ℕ) (error_freq : ℚ) (run : ℕ) : MHState :=
  if start_breaking ≤ run then set_error_freq (freshSampler startPoint) error_freq
  else freshSampler startPoint

/-- Embedding of the loop body of `get_klds`, recursing over the remaining
runs: for each run index a fresh sampler is instantiated (with the error
frequency configured iff the run index has reached `start_breaking`), the
controller runs exactly 1000 iterations, and the divergence of the recorded
chain is appended. -/
def kldsLoop (E : Extern) (rng : ℕ → ℚ) (start_breaking : ℕ) (error_freq : ℚ) :
    ℕ → ℕ → ℕ → ℕ → List ℚ × ℕ × ℕ
  | _, 0, kp, kn => ([], kp, kn)
  | run, rem + 1, kp, kn =>
    let r := runChainAux E rng 1000 (stFor start_breaking error_freq run) kp kn
    let rest := kldsLoop E rng start_breaking error_freq (run + 1) rem r.2.2.1 r.2.2.2
    (E.kld r.1 :: rest.1, rest.2)

/-- Embedding of `get_klds(num_runs, start_breaking, error_freq)`: the run
loop starting at run index 0, threading the global fault and numpy cursors. -/
def get_klds (E : Extern) (rng : ℕ → ℚ) (num_runs start_breaking : ℕ)
    (error_freq : ℚ) (kp kn : ℕ) : List ℚ × ℕ × ℕ :=
  kldsLoop E rng start_breaking error_freq 0 num_runs kp kn

/-- The pair of global random cursors as they stand when the run at offset
`r` begins, obtained by replaying `r` runs of the `get_klds` loop starting at
run index `run` with cursors `(kp, kn)`. -/
def cursorsFrom (E : Extern) (rng : ℕ → ℚ) (start_breaking : ℕ)
    (error_freq : ℚ) : ℕ → ℕ → ℕ → ℕ → ℕ × ℕ
  | _, kp, kn, 0 => (kp, kn)
  | run, kp, kn, r + 1 =>
    cursorsFrom E rng start_breaking error_freq (run + 1)
      (runChainAux E rng 1000 (stFor start_breaking error_freq run) kp kn).2.2.1
      (runChainAux E rng 1000 (stFor start_breaking error_freq run) kp kn).2.2.2 r

/-- Sanity of the external `ask`: it stores the returned proposal in the
proposal slot and leaves the fields `BrokenMH.tell` reads for its fault
decision and bookkeeping (error frequency, iteration count, acceptance rate)
untouched; `pints.MetropolisRandomWalkMCMC.ask` only draws and records a
proposal. -/
def AskSane (E : Extern) : Prop :=
  ∀ s c, (E.ask s c).1.proposed = some (E.ask s c).2.1
    ∧ (E.ask s c).1.error_freq = s.error_freq
    ∧ (E.ask s c).1.iterations = s.iterations
    ∧ (E.ask s c).1.acceptance = s.acceptance

/-- With error frequency 1 and a fault stream bounded below 1 every step of a
run takes the fault branch: the chain records the proposals exactly, the
error frequency stays 1, the iteration count advances by the run length, and
the acceptance rate satisfies the running-average recurrence in product
form. -/
theorem runChainAux_forced (E : Extern) (rng : ℕ → ℚ)
    (hrng : ∀ i, rng i < 1) (hask : AskSane E) :
    ∀ (n : ℕ) (st : MHState) (kp kn : ℕ), st.error_freq = 1 →
      (runChainAux E rng n st kp kn).1 = (proposalsOf E rng n st kp kn).map some
      ∧ (runChainAux E rng n st kp kn).2.1.error_freq = 1
      ∧ (runChainAux E rng n st kp kn).2.1.iterations = st.iterations + n
      ∧ (runChainAux E rng n st kp kn).2.1.acceptance * ((st.iterations : ℚ) + (n : ℚ))
          = (st.iterations : ℚ) * st.acceptance + (n : ℚ) := by
  intro n
  induction n with
  | zero =>
    intro st kp kn hp
    refine ⟨by simp [runChainAux, proposalsOf], by simpa [runChainAux] using hp,
      by simp [runChainAux], ?_⟩
    simp only [runChainAux, Nat.cast_zero, add_zero]
    ring
  | succ n ih =>
    intro st kp kn hp
    obtain ⟨hprop, hef, hit, hacc⟩ := hask st kn
    have hef1 : (E.ask st kn).1.error_freq = 1 := by rw [hef, hp]
    have hne : (E.ask st kn).1.error_freq ≠ 0 := by rw [hef1]; norm_num
    have hnotgt : ¬ rng kp > (E.ask st kn).1.error_freq := by
      rw [hef1]
      exact not_lt.mpr (le_of_lt (hrng kp))
    have hbt : brokenTell E.superTell (E.ask st kn).1 (E.eval (E.ask st kn).2.1)
        rng kp (E.ask st kn).2.2
        = ({ (E.ask st kn).1 with
              acceptance := (((E.ask st kn).1.iterations : ℚ) * (E.ask st kn).1.acceptance + 1)
                / (((E.ask st kn).1.iterations : ℚ) + 1)
              iterations := (E.ask st kn).1.iterations + 1
              current := (E.ask st kn).1.proposed
              current_log_pdf := E.eval (E.ask st kn).2.1
              proposed := none }, (E.ask st kn).1.proposed, kp + 1, (E.ask st kn).2.2) := by
      simp [brokenTell, hne, hnotgt]
    have hst1 : ({ (E.ask st kn).1 with
        acceptance := (((E.ask st kn).1.iterations : ℚ) * (E.ask st kn).1.acceptance + 1)
          / (((E.ask st kn).1.iterations : ℚ) + 1)
        iterations := (E.ask st kn).1.iterations + 1
        current := (E.ask st kn).1.proposed
        current_log_pdf := E.eval (E.ask st kn).2.1
        proposed := none } : MHState).error_freq = 1 := hef1
    have IH := ih _ (kp + 1) (E.ask st kn).2.2 hst1
    simp only [runChainAux, proposalsOf]
    rw [hbt]
    refine ⟨?_, ?_, ?_, ?_⟩
    · simp only [List.map_cons]
      exact congrArg₂ List.cons hprop IH.1
    · exact IH.2.1
    · rw [IH.2.2.1]
      simp only [hit]
      omega
    · have H4 := IH.2.2.2
      simp only [hit, hacc] at H4 ⊢
      push_cast at H4 ⊢
      field_simp at H4 ⊢
      linear_combination H4

/-- C1: with error frequency 1 every step force-accepts: the recorded chain
equals the exact sequence of proposed values mapped into the sample slot;
after `n` iterations starting from iteration count `k` and acceptance rate 0
the acceptance rate equals `n / (n + k)`; and the acceptance rate tends to 1
as the number of iterations grows. -/
theorem forced_accept_chain_eq_proposals
    (E : Extern) (rng : ℕ → ℚ) (n : ℕ) (st : MHState) (kp kn k : ℕ)
    (hrng : ∀ i, rng i < 1) (hask : AskSane E)
    (hp : st.error_freq = 1) (hk : st.iterations = k) (ha : st.acceptance = 0) :
    (runChainAux E rng n st kp kn).1 = (proposalsOf E rng n st kp kn).map some
    ∧ (runChainAux E rng n st kp kn).2.1.acceptance = (n : ℚ) / ((n : ℚ) + (k : ℚ))
    ∧ Filter.Tendsto
        (fun m : ℕ => ((runChainAux E rng m st kp kn).2.1.acceptance : ℝ))
        Filter.atTop (nhds 1) := by
  have hpt : ∀ m : ℕ, 0 < m + k →
      (runChainAux E rng m st kp kn).2.1.acceptance = (m : ℚ) / ((m : ℚ) + (k : ℚ)) := by
    intro m hm
    have H4 := (runChainAux_forced E rng hrng hask m st kp kn hp).2.2.2
    rw [hk, ha] at H4
    have hne : ((m : ℚ) + (k : ℚ)) ≠ 0 := by
      have h1 : (0 : ℚ) < (m : ℚ) + (k : ℚ) := by exact_mod_cast hm
      exact ne_of_gt h1
    rw [eq_div_iff hne]
    linear_combination H4
  refine ⟨(runChainAux_forced E rng hrng hask n st kp kn hp).1, ?_, ?_⟩
  · rcases Nat.eq_zero_or_pos (n + k) with h0 | hpos
    · have hn : n = 0 := by omega
      have hk0 : k = 0 := by omega
      subst hn
      subst hk0
      simp [runChainAux, ha]
    · exact hpt n hpos
  · have hlim : Filter.Tendsto (fun m : ℕ => (m : ℝ) / ((m : ℝ) + (k : ℝ)))
        Filter.atTop (nhds 1) := tendsto_natCast_div_add_atTop (k : ℝ)
    have hev : (fun m : ℕ => (m : ℝ) / ((m : ℝ) + (k : ℝ)))
        =ᶠ[Filter.atTop] fun m : ℕ =>
          ((runChainAux E rng m st kp kn).2.1.acceptance : ℝ) := by
      filter_upwards [Filter.eventually_ge_atTop 1] with m hm
      rw [hpt m (by omega)]
      push_cast
      ring
    exact Filter.Tendsto.congr' hev hlim

/-- Concrete external collaborator pack used only to instantiate theorems on
closed inputs: `ask` proposes the constant 7 and stores it, `eval` is the
identity, `superTell` is `superTellW`, and `kld` returns the chain length. -/
def externW : Extern :=
  { ask := fun s c => ({ s with proposed := some 7 }, 7, c + 1)
    eval := fun x => x
    superTell := superTellW
    kld := fun l => (l.length : ℚ) }

/-- Witness for C1 at closed inputs: a 3-step run with error frequency 1. -/
theorem forced_accept_chain_eq_proposals_witness :
    (runChainAux externW rngW 3 (set_error_freq (freshSampler startPoint) 1) 0 0).1
        = (proposalsOf externW rngW 3 (set_error_freq (freshSampler startPoint) 1) 0 0).map some
    ∧ (runChainAux externW rngW 3
        (set_error_freq (freshSampler startPoint) 1) 0 0).2.1.acceptance
        = ((3 : ℕ) : ℚ) / (((3 : ℕ) : ℚ) + ((0 : ℕ) : ℚ))
    ∧ Filter.Tendsto
        (fun m : ℕ => ((runChainAux externW rngW m
          (set_error_freq (freshSampler startPoint) 1) 0 0).2.1.acceptance : ℝ))
        Filter.atTop (nhds 1) :=
  forced_accept_chain_eq_proposals externW rngW 3
    (set_error_freq (freshSampler startPoint) 1) 0 0 0
    (fun _ => by norm_num [rngW]) (fun _ _ => ⟨rfl, rfl, rfl, rfl⟩) rfl rfl rfl

/-- Assumption that the external collaborators do not touch the `error_freq`
attribute; pints predates the attribute added by `BrokenMH` and never writes
it. -/
def PreservesErrorFreq (E : Extern) : Prop :=
  (∀ s c, (E.ask s c).1.error_freq = s.error_freq)
  ∧ ∀ s f c, (E.superTell s f c).1.error_freq = s.error_freq

/-- With error frequency 0 a whole run delegates every step: it equals the
unmodified Metropolis-Hastings run and never consumes the fault stream. -/
theorem runChainAux_no_fault (E : Extern) (rng : ℕ → ℚ)
    (hE : PreservesErrorFreq E) :
    ∀ (n : ℕ) (st : MHState) (kp kn : ℕ), st.error_freq = 0 →
      runChainAux E rng n st kp kn
        = ((mhChainAux E n st kn).1, (mhChainAux E n st kn).2.1, kp,
            (mhChainAux E n st kn).2.2) := by
  intro n
  induction n with
  | zero =>
    intro st kp kn hp
    simp [runChainAux, mhChainAux]
  | succ n ih =>
    intro st kp kn hp
    have hef : (E.ask st kn).1.error_freq = 0 := by rw [hE.1, hp]
    have hbt : brokenTell E.superTell (E.ask st kn).1 (E.eval (E.ask st kn).2.1)
        rng kp (E.ask st kn).2.2
        = ((E.superTell (E.ask st kn).1 (E.eval (E.ask st kn).2.1) (E.ask st kn).2.2).1,
            (E.superTell (E.ask st kn).1 (E.eval (E.ask st kn).2.1) (E.ask st kn).2.2).2.1,
            kp,
            (E.superTell (E.ask st kn).1 (E.eval (E.ask st kn).2.1) (E.ask st kn).2.2).2.2) := by
      simp [brokenTell, hef]
    have h2 : (E.superTell (E.ask st kn).1 (E.eval (E.ask st kn).2.1)
        (E.ask st kn).2.2).1.error_freq = 0 := by
      rw [hE.2, hef]
    simp only [runChainAux, mhChainAux]
    rw [hbt, ih _ kp _ h2]

/-- C10: a freshly constructed `BrokenMH` sampler has error frequency 0, and
if `set_error_freq` is never called (and the external collaborators never
write the attribute) an entire run behaves exactly as the unmodified
Metropolis-Hastings chain: every `tell` takes the delegation branch, the
forced-accept branch never executes, and the fault stream is never consumed
(its cursor returns unchanged). -/
theorem fresh_sampler_never_faults (E : Extern) (rng : ℕ → ℚ) (n : ℕ) (y : ℚ)
    (kp kn : ℕ) (hE : PreservesErrorFreq E) :
    (freshSampler y).error_freq = 0
    ∧ runChainAux E rng n (freshSampler y) kp kn
        = ((mhChainAux E n (freshSampler y) kn).1,
            (mhChainAux E n (freshSampler y) kn).2.1, kp,
            (mhChainAux E n (freshSampler y) kn).2.2) :=
  ⟨rfl, runChainAux_no_fault E rng hE n (freshSampler y) kp kn rfl⟩

/-- Witness for C10 at closed inputs: a 5-step run from a fresh sampler. -/
theorem fresh_sampler_never_faults_witness :
    (freshSampler 1).error_freq = 0
    ∧ runChainAux externW rngW 5 (freshSampler 1) 0 0
        = ((mhChainAux externW 5 (freshSampler 1) 0).1,
            (mhChainAux externW 5 (freshSampler 1) 0).2.1, 0,
            (mhChainAux externW 5 (freshSampler 1) 0).2.2) :=
  fresh_sampler_never_faults externW rngW 5 1 0 0
    ⟨fun _ _ => rfl, fun _ _ _ => rfl⟩

/-- The `get_klds` loop produces exactly one divergence per remaining run. -/
theorem kldsLoop_length (E : Extern) (rng : ℕ → ℚ) (s : ℕ) (f : ℚ) :
    ∀ (rem run kp kn : ℕ), (kldsLoop E rng s f run rem kp kn).1.length = rem := by
  intro rem
  induction rem with
  | zero =>
    intro run kp kn
    simp [kldsLoop]
  | succ rem ih =>
    intro run kp kn
    simp [kldsLoop, ih]

/-- One-step unfolding of `cursorsFrom` at offset 0. -/
theorem cursorsFrom_zero (E : Extern) (rng : ℕ → ℚ) (s : ℕ) (f : ℚ)
    (run kp kn : ℕ) : cursorsFrom E rng s f run kp kn 0 = (kp, kn) := rfl

/-- One-step unfolding of `cursorsFrom` at a successor offset. -/
theorem cursorsFrom_succ (E : Extern) (rng : ℕ → ℚ) (s : ℕ) (f : ℚ)
    (run kp kn r : ℕ) :
    cursorsFrom E rng s f run kp kn (r + 1)
      = cursorsFrom E rng s f (run + 1)
          (runChainAux E rng 1000 (stFor s f run) kp kn).2.2.1
          (runChainAux E rng 1000 (stFor s f run) kp kn).2.2.2 r := rfl

/-- One-step unfolding of the `get_klds` loop. -/
theorem kldsLoop_succ (E : Extern) (rng : ℕ → ℚ) (s : ℕ) (f : ℚ)
    (run rem kp kn : ℕ) :
    kldsLoop E rng s f run (rem + 1) kp kn
      = (E.kld (runChainAux E rng 1000 (stFor s f run) kp kn).1
          :: (kldsLoop E rng s f (run + 1) rem
              (runChainAux E rng 1000 (stFor s f run) kp kn).2.2.1
              (runChainAux E rng 1000 (stFor s f run) kp kn).2.2.2).1,
         (kldsLoop E rng s f (run + 1) rem
              (runChainAux E rng 1000 (stFor s f run) kp kn).2.2.1
              (runChainAux E rng 1000 (stFor s f run) kp kn).2.2.2).2) := rfl

/-- The entry at offset `r` of the `get_klds` loop is the divergence of the
run-`r` chain started from the replayed cursors. -/
theorem kldsLoop_get (E : Extern) (rng : ℕ → ℚ) (s : ℕ) (f : ℚ) :
    ∀ (rem run kp kn r : ℕ), r < rem →
      (kldsLoop E rng s f run rem kp kn).1[r]?
        = some (E.kld (runChainAux E rng 1000 (stFor s f (run + r))
            (cursorsFrom E rng s f run kp kn r).1
            (cursorsFrom E rng s f run kp kn r).2).1) := by
  intro rem
  induction rem with
  | zero =>
    intro run kp kn r h
    omega
  | succ rem ih =>
    intro run kp kn r h
    rw [kldsLoop_succ E rng s f run rem kp kn]
    match r with
    | 0 =>
      rw [cursorsFrom_zero E rng s f run kp kn]
      simp only [List.getElem?_cons_zero, Nat.add_zero]
    | r + 1 =>
      have h' : r < rem := by omega
      rw [cursorsFrom_succ E rng s f run kp kn r]
      have e : run + (r + 1) = run + 1 + r := by omega
      rw [e]
      simp only [List.getElem?_cons_succ]
      exact ih (run + 1) _ _ r h'

/-- C4: `get_klds` returns an ordered sequence of exactly `num_runs`
divergences, index-aligned with run number: the entry at run index `r` is the
divergence of the chain obtained by instantiating a fresh sampler (iteration
count 0, acceptance rate 0, fixed start point), configuring its error
frequency to `error_freq` iff `r ≥ start_breaking` (otherwise it stays 0),
and running it for exactly 1000 iterations from the random cursors reached
after the first `r` runs. -/
theorem get_klds_spec (E : Extern) (rng : ℕ → ℚ) (num_runs start_breaking : ℕ)
    (error_freq : ℚ) (kp kn : ℕ) :
    (get_klds E rng num_runs start_breaking error_freq kp kn).1.length = num_runs
    ∧ ∀ r, r < num_runs →
      (get_klds E rng num_runs start_breaking error_freq kp kn).1[r]?
        = some (E.kld (runChainAux E rng 1000
            (if start_breaking ≤ r then
              set_error_freq (freshSampler startPoint) error_freq
             else freshSampler startPoint)
            (cursorsFrom E rng start_breaking error_freq 0 kp kn r).1
            (cursorsFrom E rng start_breaking error_freq 0 kp kn r).2).1) := by
  constructor
  · exact kldsLoop_length E rng start_breaking error_freq num_runs 0 kp kn
  · intro r hr
    have h := kldsLoop_get E rng start_breaking error_freq num_runs 0 kp kn r hr
    simpa [get_klds, stFor] using h

/-- Witness for C4 at closed inputs: two runs with breaking point 1. -/
theorem get_klds_spec_witness :
    (get_klds externW rngW 2 1 (1 / 2) 0 0).1.length = 2
    ∧ (get_klds externW rngW 2 1 (1 / 2) 0 0).1[1]?
        = some (externW.kld (runChainAux externW rngW 1000
            (set_error_freq (freshSampler startPoint) (1 / 2))
            (cursorsFrom externW rngW 1 (1 / 2) 0 0 0 1).1
            (cursorsFrom externW rngW 1 (1 / 2) 0 0 0 1).2).1) := by
  refine ⟨(get_klds_spec externW rngW 2 1 (1 / 2) 0 0).1, ?_⟩
  have h := (get_klds_spec externW rngW 2 1 (1 / 2) 0 0).2 1 (by norm_num)
  simpa using h

/-- The loop of `get_klds` never reads the error frequency on runs before the
breaking point, so any two configured frequencies give identical loops while
no run index has reached `start_breaking`. -/
theorem kldsLoop_ignores_freq (E : Extern) (rng : ℕ → ℚ) (s : ℕ) (f g : ℚ) :
    ∀ (rem run kp kn : ℕ), run + rem ≤ s →
      kldsLoop E rng s f run rem kp kn = kldsLoop E rng s g run rem kp kn := by
  intro rem
  induction rem with
  | zero =>
    intro run kp kn _
    rfl
  | succ rem ih =>
    intro run kp kn h
    have hrun : ¬ s ≤ run := by omega
    simp only [kldsLoop, stFor, if_neg hrun]
    rw [ih (run + 1) _ _ (by omega)]

/-- C5: `get_klds` with `num_runs = 10` and `start_breaking = 10` (breaking
point at or beyond the last run) produces results identical to running it
with `error_freq = 0`, since no run index reaches the breaking point and
hence no sampler is ever configured with a nonzero error frequency. -/
theorem get_klds_break_beyond_last_run (E : Extern) (rng : ℕ → ℚ) (kp kn : ℕ) :
    get_klds E rng 10 10 (1 / 2) kp kn = get_klds E rng 10 10 0 kp kn :=
  kldsLoop_ignores_freq E rng 10 (1 / 2) 0 10 0 kp kn (by norm_num)

/-- C9: determinism of the driver: all randomness is threaded explicitly, so
two executions of `get_klds` with the same arguments, the same external
collaborators, pointwise-equal fault streams (same seed) and equal starting
cursors produce identical divergence sequences. -/
theorem get_klds_deterministic (E : Extern) (rng1 rng2 : ℕ → ℚ)
    (num_runs start_breaking : ℕ) (error_freq : ℚ) (kp kn : ℕ)
    (h : ∀ i, rng1 i = rng2 i) :
    get_klds E rng1 num_runs start_breaking error_freq kp kn
      = get_klds E rng2 num_runs start_breaking error_freq kp kn := by
  rw [funext h]

/-- Witness for C9 at closed inputs. -/
theorem get_klds_deterministic_witness :
    get_klds externW rngW 3 1 (1 / 2) 0 0 = get_klds externW rngW 3 1 (1 / 2) 0 0 :=
  get_klds_deterministic externW rngW rngW 3 1 (1 / 2) 0 0 (fun _ => rfl)

/-- Empirical mean `np.mean(samples, axis=0)` of the 1-D sample sequence. -/
def empMean (samples : List ℚ) : ℚ := samples.sum / (samples.length : ℚ)

/-- Empirical covariance `np.cov(samples.T)` of the 1-D sample sequence:
numpy's default is `ddof = 1`, the sample-corrected divisor `n - 1`. -/
def empCov (samples : List ℚ) : ℚ :=
  ((samples.map fun x => (x - empMean samples) ^ 2).sum)
    / ((samples.length : ℚ) - 1)

/-- The covariance convention the spec asserts for the metric: population
covariance with divisor `n`; written from the spec's words for comparison
with `empCov`. -/
def popCovSpec (samples : List ℚ) : ℚ :=
  ((samples.map fun x => (x - empMean samples) ^ 2).sum)
    / (samples.length : ℚ)

/-- Embedding of `NormalDist.kl_divergence` on the 1-D path the experiment
exercises (`n_parameters = 1`, every matrix is 1×1, hence a scalar): `m0` and
`s0` are the empirical mean and `np.cov` covariance of the samples, `mean`
and `sigma` the target's mean and covariance, and `log` abstracts `np.log`. -/
def kl_divergence (log : ℚ → ℚ) (mean sigma : ℚ) (samples : List ℚ) : ℚ :=
  let m0 := empMean samples
  let s0 := empCov samples
  let cov_inv := sigma⁻¹
  let dkl1 := cov_inv * s0
  let dkl2 := (mean - m0) * cov_inv * (mean - m0)
  let dkl3 := log (sigma / s0)
  (1 / 2) * (dkl1 + dkl2 + dkl3 - 1)

/-- C6 counterexample: for the samples `[0, 2]` the covariance computed by
the metric (`np.cov`, sample-corrected divisor `n - 1 = 1`) equals 2, while
the population covariance asserted by the claim equals 1. -/
theorem empCov_not_population :
    empCov [0, 2] = 2 ∧ popCovSpec [0, 2] = 1
    ∧ empCov [0, 2] ≠ popCovSpec [0, 2] := by
  refine ⟨?_, ?_, ?_⟩ <;>
    norm_num [empCov, popCovSpec, empMean, List.sum_cons, List.sum_nil]

/-- C6 (amended): for sample sequences of length at least 2 the metric's
empirical covariance is the sample-corrected one (divisor `n - 1`, numpy's
`np.cov` default): it equals the population covariance scaled by
`n / (n - 1)`. -/
theorem empCov_sample_corrected (samples : List ℚ) (h : 2 ≤ samples.length) :
    empCov samples
      = ((samples.length : ℚ) / ((samples.length : ℚ) - 1)) * popCovSpec samples := by
  have h2 : (2 : ℚ) ≤ (samples.length : ℚ) := by exact_mod_cast h
  have h1 : (samples.length : ℚ) ≠ 0 := by
    intro hc
    rw [hc] at h2
    linarith
  have h3 : (samples.length : ℚ) - 1 ≠ 0 := by
    intro hc
    have : (samples.length : ℚ) = 1 := by linarith
    rw [this] at h2
    linarith
  unfold empCov popCovSpec
  field_simp
  ring

/-- Witness for C6's amended statement at closed inputs. -/
theorem empCov_sample_corrected_witness :
    empCov [0, 2]
      = ((([0, 2] : List ℚ).length : ℚ) / ((([0, 2] : List ℚ).length : ℚ) - 1))
          * popCovSpec [0, 2] :=
  empCov_sample_corrected [0, 2] (by norm_num)

/-- Concrete logarithm stand-in used only to instantiate theorems on closed
inputs; it agrees with `np.log` at 1. -/
def logW : ℚ → ℚ := fun _ => 0

/-- C7: when the samples' empirical mean and `np.cov` covariance, exactly as
the metric computes them, equal the target's mean and (nonzero) covariance,
every term behaves as claimed — the trace term equals `n_parameters = 1`, the
mean-difference quadratic term equals 0, the log-determinant-ratio term
equals 0 (using `log 1 = 0`) — and the divergence is exactly 0. -/
theorem kl_divergence_zero_at_exact_moments (log : ℚ → ℚ) (mean sigma : ℚ)
    (samples : List ℚ) (hlog : log 1 = 0) (hm : empMean samples = mean)
    (hs : empCov samples = sigma) (hsig : sigma ≠ 0) :
    sigma⁻¹ * empCov samples = 1
    ∧ (mean - empMean samples) * sigma⁻¹ * (mean - empMean samples) = 0
    ∧ log (sigma / empCov samples) = 0
    ∧ kl_divergence log mean sigma samples = 0 := by
  refine ⟨?_, ?_, ?_, ?_⟩
  · rw [hs]
    exact inv_mul_cancel₀ hsig
  · rw [hm]
    ring
  · rw [hs, div_self hsig, hlog]
  · simp only [kl_divergence]
    rw [hm, hs, div_self hsig, hlog, inv_mul_cancel₀ hsig]
    ring

/-- Witness for C7 at closed inputs: samples `[0, 2]` have empirical mean 1
and `np.cov` covariance 2, matching a target with mean 1 and covariance 2. -/
theorem kl_divergence_zero_at_exact_moments_witness :
    (2 : ℚ)⁻¹ * empCov [0, 2] = 1
    ∧ ((1 : ℚ) - empMean [0, 2]) * (2 : ℚ)⁻¹ * ((1 : ℚ) - empMean [0, 2]) = 0
    ∧ logW ((2 : ℚ) / empCov [0, 2]) = 0
    ∧ kl_divergence logW 1 2 [0, 2] = 0 :=
  kl_divergence_zero_at_exact_moments logW 1 2 [0, 2] rfl
    (by norm_num [empMean, List.sum_cons, List.sum_nil])
    (by norm_num [empCov, empMean, List.sum_cons, List.sum_nil])
    (by norm_num)

end BrokenMCMC
